import Mathlib

/-!
Verification of the ClaudeTalk room hub, spawn dispatcher and agent-session
manager.  Go maps from string keys are embedded as association lists with a
first-match lookup (Go maps have unique keys, which the update operations
below preserve); Go `nil`-able pointers become `Option`; the wall clock and
the uuid generator are passed in explicitly as inputs; a Go slice expression
that can panic is embedded as an `Option`-returning checked operation.
-/

namespace ClaudeTalk

/-- First-match lookup into an association list (a Go map read `m[k]`). -/
def slookup {α : Type} : List (String × α) → String → Option α
  | [], _ => none
  | (k, v) :: rest, key => if k = key then some v else slookup rest key

/-- Go map assignment `m[k] = v`: overwrite the entry if present, else add it. -/
def setKey {α : Type} : List (String × α) → String → α → List (String × α)
  | [], k, v => [(k, v)]
  | (k', v') :: rest, k, v =>
    if k' = k then (k, v) :: rest else (k', v') :: setKey rest k v

/-- Go map deletion `delete(m, k)`. -/
def eraseKey {α : Type} : List (String × α) → String → List (String × α)
  | [], _ => []
  | (k', v') :: rest, k =>
    if k' = k then eraseKey rest k else (k', v') :: eraseKey rest k

/-- Go `map[string]string` read with the zero-value default: `m[k]` is `""`
when the key is absent or the map is nil. -/
def mget (m : List (String × String)) (k : String) : String :=
  (slookup m k).getD ""

/-- Boolean membership in a list of names (a Go `map[string]struct{}` test). -/
def smem : List String → String → Bool
  | [], _ => false
  | x :: rest, s => if x = s then true else smem rest s

/-- `internal/protocol.Payload`. -/
structure Payload where
  text : String
  code : String
  diff : String
  filePath : String
  language : String
deriving DecidableEq

/-- `internal/protocol.Envelope`.  `Timestamp` is embedded as an integer
instant; `Metadata` as an association list read through `mget`. -/
structure Envelope where
  id : String
  room : String
  sender : String
  timestamp : Int
  msgType : String
  payload : Payload
  seqNum : Int
  metadata : List (String × String)
deriving DecidableEq

/-- `internal/protocol.SpawnReq` (the hook callbacks receive these). -/
structure SpawnReq where
  reason : String
  trigger : Option Envelope
  context : List Envelope
  participants : List String
deriving DecidableEq

/-- `internal/server.participantState`.  The `*Client` daemon pointer is
embedded as `Option Nat` (a client identity, `none` for Go `nil`). -/
structure ParticipantState where
  name : String
  role : String
  joinedAt : Int
  connected : Bool
  client : Option Nat
deriving DecidableEq

/-- `internal/server.Room`: the mutable state guarded by `r.mu`.  The
`spawnHooks` map carries Go function values; only its key set is observable
to the target-selection code, so it is embedded as the list of hook names. -/
structure RoomState where
  name : String
  maxHistory : Int
  messages : List Envelope
  seq : Int
  clients : List Nat
  participants : List (String × ParticipantState)
  convParticipants : List (String × List String)
  spawnHooks : List String
deriving DecidableEq

/-- `NewRoom`. -/
def newRoom (name : String) (maxHistory : Int) : RoomState :=
  { name := name, maxHistory := maxHistory, messages := [], seq := 0,
    clients := [], participants := [], convParticipants := [], spawnHooks := [] }

/-- `NewHub` normalises the history bound before any room is created. -/
def newHubMaxHistory (maxHistory : Int) : Int :=
  if maxHistory ≤ 0 then 1000 else maxHistory

/-- The Go slice expression `l[i:]`, which panics (here: `none`) unless
`0 ≤ i ≤ len(l)`. -/
def sliceFrom (l : List Envelope) (i : Int) : Option (List Envelope) :=
  if 0 ≤ i ∧ i ≤ (l.length : Int) then some (l.drop i.toNat) else none

/-- Add one name to a conv thread's member set (`conv[convID][n] = struct{}{}`,
creating the set when absent, as `AddMessage` does). -/
def convInsert : List (String × List String) → String → String → List (String × List String)
  | [], c, n => [(c, [n])]
  | (k, names) :: rest, c, n =>
    if k = c then (k, if n ∈ names then names else names ++ [n]) :: rest
    else (k, names) :: convInsert rest c n

/-- Member set of one conv thread (`r.convParticipants[convID]`, empty when absent). -/
def convLookup (m : List (String × List String)) (c : String) : List String :=
  (slookup m c).getD []

/-- The conv-membership update performed by `AddMessage` when `conv_id` is set:
add the sender, and the `to` recipient when non-empty. -/
def convTrack (m : List (String × List String)) (convID sender toName : String) :
    List (String × List String) :=
  let m1 := convInsert m convID sender
  if toName ≠ "" then convInsert m1 convID toName else m1

/-- The per-append inputs `AddMessage` draws from its environment: the caller
arguments plus the fresh uuid and the clock reading. -/
structure AppendInput where
  id : String
  sender : String
  msgType : String
  payload : Payload
  metadata : List (String × String)
  timestamp : Int
deriving DecidableEq

/-- `Room.AddMessage`: bump `seq`, build the envelope, append, trim the head
when over `maxHistory` (a checked slice: `none` models the Go panic), and
track conv membership.  Returns the new room state and the envelope. -/
def addMessage (r : RoomState) (inp : AppendInput) : Option (RoomState × Envelope) :=
  let seq' := r.seq + 1
  let env : Envelope :=
    { id := inp.id, room := r.name, sender := inp.sender, timestamp := inp.timestamp,
      msgType := inp.msgType, payload := inp.payload, seqNum := seq',
      metadata := inp.metadata }
  let msgs := r.messages ++ [env]
  let trimmed :=
    if (msgs.length : Int) > r.maxHistory then
      sliceFrom msgs ((msgs.length : Int) - r.maxHistory)
    else some msgs
  match trimmed with
  | none => none
  | some msgs' =>
    let convID := mget inp.metadata "conv_id"
    let conv :=
      if convID ≠ "" then convTrack r.convParticipants convID inp.sender (mget inp.metadata "to")
      else r.convParticipants
    some ({ r with messages := msgs', seq := seq', convParticipants := conv }, env)

/-- A sequence of `AddMessage` calls on one room, collecting the returned
envelopes in append order; `none` if any append panics. -/
def runAppends (r : RoomState) : List AppendInput → Option (RoomState × List Envelope)
  | [] => some (r, [])
  | inp :: rest =>
    match addMessage r inp with
    | none => none
    | some (r', env) =>
      match runAppends r' rest with
      | none => none
      | some (r'', envs) => some (r'', env :: envs)

/-- `Room.MessagesAfter`'s scan: index of the first message with `SeqNum >
after`; `none` reproduces both `return nil` exits of the Go loop (empty log,
or every message has `SeqNum <= after`). -/
def findStart : List Envelope → Int → Option Nat
  | [], _ => none
  | m :: rest, after =>
    if after < m.seqNum then some 0 else (findStart rest after).map (· + 1)

/-- `Room.MessagesAfter`: the tail of the log from the first message with
`SeqNum > after`, cut to `limit` entries when `limit > 0` and the tail is
longer than that. -/
def messagesAfter (msgs : List Envelope) (after : Int) (limit : Int) : List Envelope :=
  match findStart msgs after with
  | none => []
  | some start =>
    let result := msgs.drop start
    if 0 < limit ∧ limit < (result.length : Int) then result.take limit.toNat else result

/-- `Room.LatestMessages`: the last `n` messages. -/
def latestMessages (msgs : List Envelope) (n : Int) : List Envelope :=
  if n ≤ 0 ∨ msgs.length = 0 then []
  else
    let start : Int := (msgs.length : Int) - n
    let start := if start < 0 then 0 else start
    msgs.drop start.toNat

/-- `Room.TrackParticipant`: register or update one participant; on update the
stored daemon client is replaced only when the new role is `"daemon"`. -/
def trackParticipant (r : RoomState) (name role : String) (c : Option Nat) (now : Int) :
    RoomState :=
  match slookup r.participants name with
  | some ps =>
    let ps' : ParticipantState :=
      { ps with connected := true, role := role,
                client := if role = "daemon" then c else ps.client }
    { r with participants := setKey r.participants name ps' }
  | none =>
    let ps : ParticipantState :=
      { name := name, role := role, joinedAt := now, connected := true, client := c }
    { r with participants := r.participants ++ [(name, ps)] }

/-- `Room.UntrackParticipant`: mark disconnected and drop the client pointer. -/
def untrackParticipant (r : RoomState) (name : String) : RoomState :=
  match slookup r.participants name with
  | some ps =>
    let ps' : ParticipantState := { ps with connected := false, client := none }
    { r with participants := setKey r.participants name ps' }
  | none => r

/-- The daemon-eligibility test of `GetConvSpawnTargets`: the participant
exists, is connected, and has role `"daemon"`. -/
def isDaemonTarget (r : RoomState) (n : String) : Bool :=
  match slookup r.participants n with
  | some ps => ps.connected && ps.role == "daemon"
  | none => false

/-- `Room.GetConvSpawnTargets`.  The Go code accumulates names in a
`map[string]struct{}`; the list below carries the same membership (the second
summand filters out names already contributed by the direct branch). -/
def getConvSpawnTargets (r : RoomState) (env : Envelope) : List String × List String :=
  if mget env.metadata "to" = "" ∨ mget env.metadata "expecting_reply" ≠ "true" then ([], [])
  else
    let convID := mget env.metadata "conv_id"
    let direct := mget env.metadata "to"
    let fromDirect := if isDaemonTarget r direct then [direct] else []
    let convMembers :=
      if convID ≠ "" then
        (convLookup r.convParticipants convID).filter
          (fun n => n != env.sender && isDaemonTarget r n)
      else []
    let targets := fromDirect ++ convMembers.filter (fun n => !smem fromDirect n)
    let allParts := if convID ≠ "" then convLookup r.convParticipants convID else []
    (targets, allParts)

/-- The `tryAdd` test of `GetHookSpawnTargets`: not the sender, has a
registered spawn hook, and has no daemon client attached. -/
def hookEligible (r : RoomState) (env : Envelope) (n : String) : Bool :=
  if n = env.sender then false
  else if !smem r.spawnHooks n then false
  else
    match slookup r.participants n with
    | some ps => ps.client.isNone
    | none => true

/-- `Room.GetHookSpawnTargets`: names whose hooks fire (the Go code returns
the hook map keyed by these names) plus the thread-member list. -/
def getHookSpawnTargets (r : RoomState) (env : Envelope) : List String × List String :=
  if mget env.metadata "to" = "" ∨ mget env.metadata "expecting_reply" ≠ "true" then ([], [])
  else
    let convID := mget env.metadata "conv_id"
    let direct := mget env.metadata "to"
    let fromDirect := if hookEligible r env direct then [direct] else []
    let convHooks :=
      if convID ≠ "" then
        (convLookup r.convParticipants convID).filter
          (fun n => hookEligible r env n && !smem fromDirect n)
      else []
    let allParts := if convID ≠ "" then convLookup r.convParticipants convID else []
    (fromDirect ++ convHooks, allParts)

/-- The spawn-frame loop of `Client.writePump`: every daemon client receives
the frame except the dispatching connection itself (`dc == c` is skipped). -/
def spawnDispatchClients (daemonClients : List (String × Nat)) (self : Nat) : List Nat :=
  (daemonClients.filter (fun p => p.2 != self)).map (fun p => p.2)

/-- `internal/runner.sessionKey`. -/
structure SessionKey where
  room : String
  sender : String
  convID : String
deriving DecidableEq

/-- The busy-error text of `SessionManager.Start`. -/
def busyMsg (room sender convID : String) : String :=
  "Claude session already active for " ++ sender ++ " in room " ++ room ++
    " (conv: " ++ convID ++ ")"

/-- `SessionManager.Start`: busy error (state untouched) when the exact key is
active, otherwise install the key.  The cancel handle carries no observable
state here. -/
def sessionStart (sessions : List SessionKey) (room sender convID : String) :
    Option String × List SessionKey :=
  let key : SessionKey := ⟨room, sender, convID⟩
  if key ∈ sessions then (some (busyMsg room sender convID), sessions)
  else (none, key :: sessions)

/-- `SessionManager.End`: drop the key. -/
def sessionEnd (sessions : List SessionKey) (room sender convID : String) :
    List SessionKey :=
  sessions.filter (fun k => k ≠ (⟨room, sender, convID⟩ : SessionKey))

/-- The error text of `SessionManager.Stop`. -/
def noSessionMsg (room sender : String) : String :=
  "no active Claude session for " ++ sender ++ " in room " ++ room

/-- `SessionManager.Stop`: cancel and remove every key matching `(room,
sender)`; not-found error (state untouched) when none matched. -/
def sessionStop (sessions : List SessionKey) (room sender : String) :
    Option String × List SessionKey :=
  if sessions.any (fun k => k.room == room && k.sender == sender) then
    (none, sessions.filter (fun k => !(k.room == room && k.sender == sender)))
  else (some (noSessionMsg room sender), sessions)

/-- The conv-thread key a spawn signal is filed under:
`req.Trigger.Metadata["conv_id"]`, `""` when the trigger is nil. -/
def convIDOf (req : SpawnReq) : String :=
  match req.trigger with
  | some env => mget env.metadata "conv_id"
  | none => ""

/-- Outcome of one `trySpawn` call (`hostHookState.trySpawn` in the server,
identically `trySpawn` in the watcher connection): the session-manager state,
the pending-spawn map, and the turns actually launched. -/
structure TrySpawnOut where
  sessions : List SessionKey
  pending : List (String × SpawnReq)
  started : List SpawnReq
deriving DecidableEq

/-- Outcome of a turn's completion path: final session-manager and pending
state, the turns launched by the replay, the texts of system envelopes
appended to the room, and whether a failure was logged. -/
structure CompleteOut where
  sessions : List SessionKey
  pending : List (String × SpawnReq)
  started : List SpawnReq
  appended : List String
  logged : Bool
deriving DecidableEq

/-- `hostHookState.trySpawn`: start a session for the signal's key; when the
key is busy, record the signal in the pending slot (overwriting) and launch
nothing. -/
def trySpawnH (room sender : String) (sessions : List SessionKey)
    (pending : List (String × SpawnReq)) (req : SpawnReq) : TrySpawnOut :=
  let convID := convIDOf req
  match sessionStart sessions room sender convID with
  | (some _, _) => ⟨sessions, setKey pending convID req, []⟩
  | (none, s') => ⟨s', pending, [req]⟩

/-- The deferred completion path of `hostHookState.trySpawn`'s goroutine (and
of the watcher's `trySpawn`), run after `Runner.Spawn` returned `spawnErr`:
end the session, read and clear the pending slot, and re-invoke the spawn
path when a pending signal was present.  A spawn failure is only logged on
this path; no system envelope is appended. -/
def hookCompleteH (room sender convID : String) (sessions : List SessionKey)
    (pending : List (String × SpawnReq)) (spawnErr : Option String) : CompleteOut :=
  let s1 := sessionEnd sessions room sender convID
  let p1 := eraseKey pending convID
  match slookup pending convID with
  | none => ⟨s1, p1, [], [], spawnErr.isSome⟩
  | some req =>
    let t := trySpawnH room sender s1 p1 req
    ⟨t.sessions, t.pending, t.started, [], spawnErr.isSome⟩

/-- The completion of `Handlers.SpawnClaude`'s goroutine, run after
`Runner.Spawn` returned `spawnErr`: on failure, log and append a system
envelope announcing the error; the deferred calls end the session for the
empty conv key.  This path never consults the pending-spawn map. -/
def spawnClaudeCompleteH (room sender claudeName : String) (sessions : List SessionKey)
    (pending : List (String × SpawnReq)) (spawnErr : Option String) : CompleteOut :=
  let appended :=
    match spawnErr with
    | some e => [claudeName ++ " encountered an error: " ++ e]
    | none => []
  ⟨sessionEnd sessions room sender "", pending, [], appended, spawnErr.isSome⟩

/-- `internal/protocol.ParticipantInfo`. -/
structure ParticipantInfo where
  name : String
  role : String
  joinedAt : Int
  connected : Bool
deriving DecidableEq

/-- `Room.ListParticipants`. -/
def listParticipantsRoom (r : RoomState) : List ParticipantInfo :=
  r.participants.map (fun p => ⟨p.2.name, p.2.role, p.2.joinedAt, p.2.connected⟩)

/-- The observable HTTP responses of the handlers under study.  `err` carries
the status code and message of `writeError`. -/
inductive ApiResult where
  | okMessages (room : String) (msgs : List Envelope) (count : Nat)
  | okParticipants (room : String) (participants : List ParticipantInfo)
  | okStopped
  | err (status : Nat) (msg : String)
deriving DecidableEq

/-- Whether a response is an error response. -/
def ApiResult.isErr : ApiResult → Bool
  | .err _ _ => true
  | _ => false

/-- `Handlers.GetMessages` (query parameters already decoded): an unknown room
yields a 200 response with an empty message list, not an error. -/
def getMessagesH (rooms : List (String × RoomState)) (roomName : String)
    (after limit : Int) : ApiResult :=
  if roomName = "" then .err 400 "room name required"
  else
    match slookup rooms roomName with
    | none => .okMessages roomName [] 0
    | some r =>
      let msgs := messagesAfter r.messages after limit
      .okMessages roomName msgs msgs.length

/-- `Handlers.LatestMessages` (query parameter already decoded). -/
def latestMessagesH (rooms : List (String × RoomState)) (roomName : String)
    (n : Int) : ApiResult :=
  if roomName = "" then .err 400 "room name required"
  else
    match slookup rooms roomName with
    | none => .okMessages roomName [] 0
    | some r =>
      let msgs := latestMessages r.messages n
      .okMessages roomName msgs msgs.length

/-- `Handlers.ListParticipants`. -/
def listParticipantsH (rooms : List (String × RoomState)) (roomName : String) : ApiResult :=
  if roomName = "" then .err 400 "room name required"
  else
    match slookup rooms roomName with
    | none => .okParticipants roomName []
    | some r => .okParticipants roomName (listParticipantsRoom r)

/-- `Handlers.StopClaude` restricted to its session-manager effect: `Stop`
failing (no active turn for the user) surfaces as a 404. -/
def stopClaudeH (sessions : List SessionKey) (roomName sender : String) :
    ApiResult × List SessionKey :=
  if roomName = "" then (.err 400 "room name required", sessions)
  else if sender = "" then (.err 400 "sender required", sessions)
  else
    match sessionStop sessions roomName sender with
    | (some e, s) => (.err 404 e, s)
    | (none, s) => (.okStopped, s)

/-- A concrete spawn signal carrying "msg2" for thread `t1` (witness data). -/
def c2msg2 : SpawnReq :=
  ⟨"directed_message",
   some ⟨"i2", "R", "A", 2, "text", ⟨"msg2", "", "", "", ""⟩, 2,
     [("to", "B"), ("conv_id", "t1"), ("expecting_reply", "true")]⟩, [], []⟩

/-- A concrete spawn signal carrying "msg3" for thread `t1` (witness data). -/
def c2msg3 : SpawnReq :=
  ⟨"directed_message",
   some ⟨"i3", "R", "A", 3, "text", ⟨"msg3", "", "", "", ""⟩, 3,
     [("to", "B"), ("conv_id", "t1"), ("expecting_reply", "true")]⟩, [], []⟩

/-- A concrete room for the C1 witness: daemons `B` and `C` and user `A`,
thread `t1` containing all three. -/
def c1room : RoomState :=
  ⟨"R", 1000, [], 0, [],
   [("B", ⟨"B", "daemon", 0, true, some 1⟩),
    ("C", ⟨"C", "daemon", 0, true, some 2⟩),
    ("A", ⟨"A", "user", 0, true, some 3⟩)],
   [("t1", ["A", "B", "C"])], []⟩

/-- A concrete directed envelope from `A` to `B` in thread `t1` (C1 witness). -/
def c1env : Envelope :=
  ⟨"e1", "R", "A", 0, "text", ⟨"hi", "", "", "", ""⟩, 1,
   [("to", "B"), ("conv_id", "t1"), ("expecting_reply", "true")]⟩

/-- A concrete room whose only participant is the connected daemon `A`. -/
def c4room : RoomState :=
  ⟨"R", 1000, [], 0, [], [("A", ⟨"A", "daemon", 0, true, some 1⟩)], [], []⟩

/-- A directed envelope whose sender addresses itself (`to == sender`). -/
def c4env : Envelope :=
  ⟨"e1", "R", "A", 0, "text", ⟨"hi", "", "", "", ""⟩, 1,
   [("to", "A"), ("expecting_reply", "true")]⟩

/-- A directed envelope from `A` to `B` (so `to != sender`). -/
def c4envB : Envelope :=
  ⟨"e2", "R", "A", 0, "text", ⟨"hi", "", "", "", ""⟩, 2,
   [("to", "B"), ("expecting_reply", "true")]⟩

/-- A concrete room where daemon `B` is connected and also has a spawn hook
registered (C5 witness). -/
def c5room : RoomState :=
  ⟨"R", 1000, [], 0, [], [("B", ⟨"B", "daemon", 0, true, some 1⟩)], [], ["B"]⟩

/-- A concrete directed envelope from `A` to `B` (C5 witness). -/
def c5env : Envelope :=
  ⟨"e1", "R", "A", 0, "text", ⟨"hi", "", "", "", ""⟩, 1,
   [("to", "B"), ("expecting_reply", "true")]⟩

theorem slookup_setKey_self {α : Type} (m : List (String × α)) (k : String) (v : α) :
    slookup (setKey m k v) k = some v := by
  induction m with
  | nil => simp [setKey, slookup]
  | cons hd tl ih =>
    obtain ⟨k', v'⟩ := hd
    by_cases h : k' = k <;> simp [setKey, slookup, h, ih]

theorem slookup_eraseKey_self {α : Type} (m : List (String × α)) (k : String) :
    slookup (eraseKey m k) k = none := by
  induction m with
  | nil => simp [eraseKey, slookup]
  | cons hd tl ih =>
    obtain ⟨k', v'⟩ := hd
    by_cases h : k' = k <;> simp [eraseKey, slookup, h, ih]

theorem smem_iff_mem (l : List String) (s : String) : smem l s = true ↔ s ∈ l := by
  induction l with
  | nil => simp [smem]
  | cons x rest ih =>
    by_cases h : x = s <;> simp [smem, h, ih]
    exact fun hmem => (h (hmem.symm ▸ rfl)).elim

theorem not_mem_sessionEnd (sessions : List SessionKey) (room sender convID : String) :
    (⟨room, sender, convID⟩ : SessionKey) ∉ sessionEnd sessions room sender convID := by
  simp [sessionEnd]

/-- Claim C6: `SessionManager.Start` returns a busy error exactly when the
same `(room, sender, conv_id)` key is active, leaving the session map
unchanged in that case; otherwise it installs the key.  Two starts for the
same room and sender but different conv ids both succeed and coexist. -/
theorem sessionStart_busy_iff (sessions : List SessionKey)
    (room sender convID convID' : String) :
    ((⟨room, sender, convID⟩ : SessionKey) ∈ sessions →
      sessionStart sessions room sender convID =
        (some (busyMsg room sender convID), sessions)) ∧
    ((⟨room, sender, convID⟩ : SessionKey) ∉ sessions →
      sessionStart sessions room sender convID =
        (none, ⟨room, sender, convID⟩ :: sessions)) ∧
    (convID ≠ convID' → (⟨room, sender, convID⟩ : SessionKey) ∉ sessions →
      (⟨room, sender, convID'⟩ : SessionKey) ∉ sessions →
      sessionStart (⟨room, sender, convID⟩ :: sessions) room sender convID' =
        (none, ⟨room, sender, convID'⟩ :: ⟨room, sender, convID⟩ :: sessions)) := by
  refine ⟨fun h => ?_, fun h => ?_, fun hne h1 h2 => ?_⟩
  · simp [sessionStart, h]
  · simp [sessionStart, h]
  · have : (⟨room, sender, convID'⟩ : SessionKey) ∉
        (⟨room, sender, convID⟩ : SessionKey) :: sessions := by
      intro hmem
      rcases List.mem_cons.mp hmem with heq | hmem'
      · exact hne (congrArg SessionKey.convID heq).symm
      · exact h2 hmem'
    simp [sessionStart, this]

/-- Witness for C6 at concrete inputs: with only `(R, A, t1)` active, a start
for the same key is busy, and starts for conv ids `""` and `"t2"` both
succeed and coexist. -/
theorem sessionStart_busy_iff_witness :
    sessionStart [⟨"R", "A", "t1"⟩] "R" "A" "t1" =
      (some (busyMsg "R" "A" "t1"), [⟨"R", "A", "t1"⟩]) ∧
    sessionStart [⟨"R", "A", "t1"⟩] "R" "A" "" =
      (none, ⟨"R", "A", ""⟩ :: [⟨"R", "A", "t1"⟩]) ∧
    sessionStart (⟨"R", "A", ""⟩ :: [⟨"R", "A", "t1"⟩]) "R" "A" "t2" =
      (none, ⟨"R", "A", "t2"⟩ :: ⟨"R", "A", ""⟩ :: [⟨"R", "A", "t1"⟩]) :=
  ⟨(sessionStart_busy_iff [⟨"R", "A", "t1"⟩] "R" "A" "t1" "").1 (by decide),
   (sessionStart_busy_iff [⟨"R", "A", "t1"⟩] "R" "A" "" "t2").2.1 (by decide),
   (sessionStart_busy_iff [⟨"R", "A", "t1"⟩] "R" "A" "" "t2").2.2 (by decide)
     (by decide) (by decide)⟩

/-- Claim C2: a spawn signal arriving while its `(room, sender, conv_id)` key
is busy is stored in the pending slot, overwriting any earlier entry and
launching nothing; the completion path then removes the session entry, clears
the pending slot, and starts exactly one fresh turn from the stored signal
(the freshly installed key on top of the sessions with the old entry
removed).  The overwritten older signal never reaches `started`. -/
theorem trySpawn_queue_overwrite_replay (room sender : String)
    (sessions : List SessionKey) (pending : List (String × SpawnReq))
    (req : SpawnReq) (errOpt : Option String)
    (hActive : (⟨room, sender, convIDOf req⟩ : SessionKey) ∈ sessions) :
    trySpawnH room sender sessions pending req =
      ⟨sessions, setKey pending (convIDOf req) req, []⟩ ∧
    slookup (setKey pending (convIDOf req) req) (convIDOf req) = some req ∧
    hookCompleteH room sender (convIDOf req) sessions
        (setKey pending (convIDOf req) req) errOpt =
      ⟨⟨room, sender, convIDOf req⟩ :: sessionEnd sessions room sender (convIDOf req),
       eraseKey (setKey pending (convIDOf req) req) (convIDOf req),
       [req], [], errOpt.isSome⟩ := by
  refine ⟨?_, slookup_setKey_self _ _ _, ?_⟩
  · unfold trySpawnH sessionStart
    simp [hActive]
  · unfold hookCompleteH
    rw [slookup_setKey_self]
    dsimp only
    unfold trySpawnH sessionStart
    dsimp only
    rw [if_neg (not_mem_sessionEnd sessions room sender (convIDOf req))]

/-- Witness for C2 at concrete inputs: key `(R, B, t1)` is active, `msg2` is
already pending, `msg3` arrives — `msg3` overwrites `msg2` in the pending
slot, and completion starts exactly one turn from `msg3` ("msg2" is never
started). -/
theorem trySpawn_queue_overwrite_replay_witness :
    (⟨"R", "B", "t1"⟩ : SessionKey) ∈ [(⟨"R", "B", "t1"⟩ : SessionKey)] ∧
    (trySpawnH "R" "B" [⟨"R", "B", "t1"⟩] [("t1", c2msg2)] c2msg3 =
       ⟨[⟨"R", "B", "t1"⟩], [("t1", c2msg3)], []⟩ ∧
     slookup [("t1", c2msg3)] "t1" = some c2msg3 ∧
     hookCompleteH "R" "B" "t1" [⟨"R", "B", "t1"⟩] [("t1", c2msg3)] none =
       ⟨[⟨"R", "B", "t1"⟩], [], [c2msg3], [], false⟩) :=
  ⟨by decide,
   trySpawn_queue_overwrite_replay "R" "B" [⟨"R", "B", "t1"⟩]
     [("t1", c2msg2)] c2msg3 none (by decide)⟩

/-- Counterexample to C7 at concrete inputs.  The claim asserts that on every
spawn path a failed `Runner.Spawn` appends a system envelope to the room and
replays any pending signal.  On the hook path (`hostHookState.trySpawn` and
the watcher's `trySpawn`), a spawn error with key `(R, B, t1)` appends no
envelope at all; and on the user-initiated path (`Handlers.SpawnClaude`), a
pending signal for the turn's key `(R, B, "")` is never replayed (`started`
stays empty). -/
theorem spawn_failure_no_system_msg_cex :
    (hookCompleteH "R" "B" "t1" [⟨"R", "B", "t1"⟩] [] (some "boom")).appended = [] ∧
    (spawnClaudeCompleteH "R" "B" "B's Claude" [⟨"R", "B", ""⟩]
        [("", ⟨"directed_message", none, [], []⟩)] (some "boom")).started = [] := by
  constructor <;> rfl

/-- Claim C7 as amended: when `Runner.Spawn` fails, the failure is logged and
the session entry for the turn's key is removed on both spawn paths, but the
two paths differ beyond that.  The user-initiated path (`SpawnClaude`)
appends a system envelope announcing the failure and performs no pending
replay; the hook path (`hostHookState.trySpawn` / the watcher) performs the
pending replay — clearing the slot and starting exactly one fresh turn when a
signal was pending — but appends no system envelope. -/
theorem spawn_failure_semantics (room sender claudeName convID : String)
    (sessions : List SessionKey) (pending : List (String × SpawnReq)) (e : String) :
    spawnClaudeCompleteH room sender claudeName sessions pending (some e) =
      ⟨sessionEnd sessions room sender "", pending, [],
       [claudeName ++ " encountered an error: " ++ e], true⟩ ∧
    (slookup pending convID = none →
      hookCompleteH room sender convID sessions pending (some e) =
        ⟨sessionEnd sessions room sender convID, eraseKey pending convID,
         [], [], true⟩) ∧
    (∀ req, slookup pending convID = some req → convIDOf req = convID →
      hookCompleteH room sender convID sessions pending (some e) =
        ⟨⟨room, sender, convID⟩ :: sessionEnd sessions room sender convID,
         eraseKey pending convID, [req], [], true⟩) := by
  refine ⟨rfl, fun hnone => ?_, fun req hsome hcid => ?_⟩
  · unfold hookCompleteH
    rw [hnone]
    rfl
  · unfold hookCompleteH
    rw [hsome]
    dsimp only
    unfold trySpawnH sessionStart
    rw [hcid]
    dsimp only
    rw [if_neg (not_mem_sessionEnd sessions room sender convID)]
    rfl

/-- Witness for C7 at concrete inputs: a failing turn on the user path
appends the error envelope and drops the session; a failing turn on the hook
path with `msg3` pending replays exactly `msg3` and appends nothing. -/
theorem spawn_failure_semantics_witness :
    spawnClaudeCompleteH "R" "B" "B's Claude" [⟨"R", "B", ""⟩] [("t1", c2msg3)]
        (some "boom") =
      ⟨[], [("t1", c2msg3)], [], ["B's Claude encountered an error: boom"], true⟩ ∧
    hookCompleteH "R" "B" "t1" [⟨"R", "B", "t1"⟩] [("t1", c2msg3)] (some "boom") =
      ⟨[⟨"R", "B", "t1"⟩], [], [c2msg3], [], true⟩ :=
  ⟨(spawn_failure_semantics "R" "B" "B's Claude" "t1" [⟨"R", "B", ""⟩]
      [("t1", c2msg3)] "boom").1,
   (spawn_failure_semantics "R" "B" "B's Claude" "t1" [⟨"R", "B", "t1"⟩]
      [("t1", c2msg3)] "boom").2.2 c2msg3 rfl rfl⟩

theorem sliceFrom_eq_drop (l : List Envelope) (i : Int) (h0 : 0 ≤ i)
    (hlen : i ≤ (l.length : Int)) : sliceFrom l i = some (l.drop i.toNat) := by
  simp [sliceFrom, h0, hlen]

theorem addMessage_isSome (r : RoomState) (inp : AppendInput) (h : 0 ≤ r.maxHistory) :
    ∃ r' env, addMessage r inp = some (r', env) ∧ r'.maxHistory = r.maxHistory ∧
      r'.seq = r.seq + 1 ∧ env.seqNum = r.seq + 1 ∧ env.timestamp = inp.timestamp := by
  unfold addMessage
  dsimp only
  split
  · next heq =>
    exfalso
    split at heq
    · next hover =>
      rw [sliceFrom_eq_drop] at heq
      · exact Option.noConfusion heq
      · simp at hover ⊢
        omega
      · simp at hover ⊢
        omega
    · exact Option.noConfusion heq
  · next msgs' heq =>
    exact ⟨_, _, rfl, rfl, rfl, rfl, rfl⟩

theorem runAppends_isSome (inputs : List AppendInput) (r : RoomState)
    (h : 0 ≤ r.maxHistory) : (runAppends r inputs).isSome := by
  induction inputs generalizing r with
  | nil => simp [runAppends]
  | cons inp rest ih =>
    obtain ⟨r', env, heq, hmh, _⟩ := addMessage_isSome r inp h
    have hrest := ih r' (by rw [hmh]; exact h)
    obtain ⟨p, hp⟩ := Option.isSome_iff_exists.mp hrest
    obtain ⟨r'', envs⟩ := p
    unfold runAppends
    rw [heq]
    dsimp only
    rw [hp]
    rfl

/-- Claim C10: `NewHub` forces a positive per-room history bound (1000 when
the configured bound is nonpositive), and on a room created with that bound
the head-truncation slice in `AddMessage` is always in range: no sequence of
appends can make it panic (`runAppends` never returns `none`). -/
theorem hub_rooms_never_panic (m : Int) (name : String) (inputs : List AppendInput) :
    0 < newHubMaxHistory m ∧
    (runAppends (newRoom name (newHubMaxHistory m)) inputs).isSome := by
  have hpos : 0 < newHubMaxHistory m := by
    unfold newHubMaxHistory
    split <;> omega
  exact ⟨hpos, runAppends_isSome inputs _ (le_of_lt hpos)⟩

theorem addMessage_fields (r : RoomState) (inp : AppendInput) (r1 : RoomState)
    (env : Envelope) (h : addMessage r inp = some (r1, env)) :
    env.seqNum = r.seq + 1 ∧ env.timestamp = inp.timestamp ∧ r1.seq = r.seq + 1 := by
  unfold addMessage at h
  dsimp only at h
  split at h
  · exact Option.noConfusion h
  · next msgs' heq =>
    simp only [Option.some.injEq, Prod.mk.injEq] at h
    obtain ⟨h1, h2⟩ := h
    subst h1
    subst h2
    exact ⟨rfl, rfl, rfl⟩

theorem runAppends_envs (inputs : List AppendInput) (r r' : RoomState)
    (envs : List Envelope) (h : runAppends r inputs = some (r', envs)) :
    envs.map (fun e => e.seqNum) =
      (List.range inputs.length).map (fun i : Nat => r.seq + 1 + (i : Int)) ∧
    envs.map (fun e => e.timestamp) = inputs.map (fun a => a.timestamp) := by
  induction inputs generalizing r envs with
  | nil =>
    unfold runAppends at h
    simp only [Option.some.injEq, Prod.mk.injEq] at h
    obtain ⟨_, h2⟩ := h
    subst h2
    simp
  | cons inp rest ih =>
    unfold runAppends at h
    rcases ha : addMessage r inp with _ | ⟨r1, env⟩
    · rw [ha] at h
      exact Option.noConfusion h
    · rw [ha] at h
      dsimp only at h
      rcases hb : runAppends r1 rest with _ | ⟨r2, envs2⟩
      · rw [hb] at h
        exact Option.noConfusion h
      · rw [hb] at h
        simp only [Option.some.injEq, Prod.mk.injEq] at h
        obtain ⟨h1, h2⟩ := h
        subst h1
        subst h2
        obtain ⟨hseq1, hts1, hr1⟩ := addMessage_fields r inp r1 env ha
        obtain ⟨hseqs, htimes⟩ := ih r1 envs2 hb
        constructor
        · rw [List.map_cons, List.length_cons, List.range_succ_eq_map,
            List.map_cons, List.map_map]
          congr 1
          · rw [hseq1]
            omega
          · rw [hseqs, hr1]
            apply List.map_congr_left
            intro a _
            simp only [Function.comp_apply]
            push_cast
            omega
        · rw [List.map_cons, List.map_cons, htimes, hts1]

/-- Claim C3: over any append run on a fresh room (with non-decreasing clock
readings), the sequence numbers of the appended envelopes are strictly
increasing in append order and the timestamps non-decreasing; consequently
every appended envelope's seq is pairwise distinct — never reused — for the
whole run, even when the history bound forces truncation. -/
theorem addMessage_seq_monotone (name : String) (mh : Int)
    (inputs : List AppendInput) (r' : RoomState) (envs : List Envelope)
    (hrun : runAppends (newRoom name mh) inputs = some (r', envs))
    (hts : List.Pairwise (fun a b => a.timestamp ≤ b.timestamp) inputs) :
    List.Pairwise (fun a b => a.seqNum < b.seqNum ∧ a.timestamp ≤ b.timestamp) envs ∧
    List.Pairwise (fun a b => a.seqNum ≠ b.seqNum) envs := by
  obtain ⟨hseqs, htimes⟩ := runAppends_envs inputs (newRoom name mh) r' envs hrun
  have hlen : envs.length = inputs.length := by
    have hl := congrArg List.length hseqs
    simpa using hl
  have hseqi : ∀ i (hi : i < envs.length), envs[i].seqNum = 1 + (i : Int) := by
    intro i hi
    have hm := List.getElem_of_eq hseqs (i := i) (by simpa using hi)
    rw [List.getElem_map, List.getElem_map, List.getElem_range] at hm
    simpa [newRoom] using hm
  have htsi : ∀ i (hi : i < envs.length),
      envs[i].timestamp = (inputs.get ⟨i, by omega⟩).timestamp := by
    intro i hi
    have hm := List.getElem_of_eq htimes (i := i) (by simpa using hi)
    rw [List.getElem_map, List.getElem_map] at hm
    exact hm
  have hts' := List.pairwise_iff_getElem.mp hts
  constructor
  · rw [List.pairwise_iff_getElem]
    intro i j hi hj hij
    refine ⟨?_, ?_⟩
    · rw [hseqi i hi, hseqi j hj]
      omega
    · rw [htsi i hi, htsi j hj]
      exact hts' i j (by omega) (by omega) hij
  · rw [List.pairwise_iff_getElem]
    intro i j hi hj hij
    rw [hseqi i hi, hseqi j hj]
    omega

/-- Witness for C3 at concrete inputs: three appends on a room with history
bound 1 (so the first two envelopes are truncated away) still produce seqs
1 < 2 < 3 with non-decreasing timestamps 5, 5, 7. -/
theorem addMessage_seq_monotone_witness :
    runAppends (newRoom "R" 1)
        [⟨"i1", "A", "text", ⟨"", "", "", "", ""⟩, [], 5⟩,
         ⟨"i2", "A", "text", ⟨"", "", "", "", ""⟩, [], 5⟩,
         ⟨"i3", "A", "text", ⟨"", "", "", "", ""⟩, [], 7⟩] =
      some (⟨"R", 1, [⟨"i3", "R", "A", 7, "text", ⟨"", "", "", "", ""⟩, 3, []⟩],
              3, [], [], [], []⟩,
        [⟨"i1", "R", "A", 5, "text", ⟨"", "", "", "", ""⟩, 1, []⟩,
         ⟨"i2", "R", "A", 5, "text", ⟨"", "", "", "", ""⟩, 2, []⟩,
         ⟨"i3", "R", "A", 7, "text", ⟨"", "", "", "", ""⟩, 3, []⟩]) ∧
    List.Pairwise (fun a b => a.seqNum < b.seqNum ∧ a.timestamp ≤ b.timestamp)
      [(⟨"i1", "R", "A", 5, "text", ⟨"", "", "", "", ""⟩, 1, []⟩ : Envelope),
       ⟨"i2", "R", "A", 5, "text", ⟨"", "", "", "", ""⟩, 2, []⟩,
       ⟨"i3", "R", "A", 7, "text", ⟨"", "", "", "", ""⟩, 3, []⟩] :=
  ⟨by decide,
   (addMessage_seq_monotone "R" 1
     [⟨"i1", "A", "text", ⟨"", "", "", "", ""⟩, [], 5⟩,
      ⟨"i2", "A", "text", ⟨"", "", "", "", ""⟩, [], 5⟩,
      ⟨"i3", "A", "text", ⟨"", "", "", "", ""⟩, [], 7⟩]
     ⟨"R", 1, [⟨"i3", "R", "A", 7, "text", ⟨"", "", "", "", ""⟩, 3, []⟩],
       3, [], [], [], []⟩
     [⟨"i1", "R", "A", 5, "text", ⟨"", "", "", "", ""⟩, 1, []⟩,
      ⟨"i2", "R", "A", 5, "text", ⟨"", "", "", "", ""⟩, 2, []⟩,
      ⟨"i3", "R", "A", 7, "text", ⟨"", "", "", "", ""⟩, 3, []⟩]
     (by decide) (by decide)).1⟩

theorem findStart_none_iff (msgs : List Envelope) (after : Int) :
    findStart msgs after = none ↔ ∀ m ∈ msgs, m.seqNum ≤ after := by
  induction msgs with
  | nil => simp [findStart]
  | cons m rest ih =>
    unfold findStart
    by_cases h : after < m.seqNum
    · simp only [if_pos h]
      constructor
      · intro hc
        exact Option.noConfusion hc
      · intro hall
        exact absurd (hall m (by simp)) (by omega)
    · simp only [if_neg h, Option.map_eq_none']
      rw [ih]
      constructor
      · intro hr x hx
        rcases List.mem_cons.mp hx with rfl | hx'
        · omega
        · exact hr x hx'
      · intro hall x hx
        exact hall x (List.mem_cons_of_mem _ hx)

theorem findStart_drop_eq_filter (msgs : List Envelope) (after : Int)
    (hs : List.Pairwise (fun a b => a.seqNum < b.seqNum) msgs) :
    (findStart msgs after).elim [] (fun s => msgs.drop s) =
      msgs.filter (fun m => decide (after < m.seqNum)) := by
  induction msgs with
  | nil => simp [findStart]
  | cons m rest ih =>
    obtain ⟨hm, hrest⟩ := List.pairwise_cons.mp hs
    unfold findStart
    by_cases h : after < m.seqNum
    · simp only [if_pos h, Option.elim, List.drop]
      rw [List.filter_cons_of_pos (by simpa using h)]
      exact congrArg (m :: ·)
        (List.filter_eq_self.mpr (fun a ha => decide_eq_true (lt_trans h (hm a ha)))).symm
    · simp only [if_neg h]
      rw [List.filter_cons_of_neg (by simpa using h)]
      cases hf : findStart rest after with
      | none =>
        dsimp only [Option.map_none', Option.elim]
        exact (List.filter_eq_nil_iff.mpr
          (fun a ha => by simpa using ((findStart_none_iff rest after).mp hf) a ha)).symm
      | some s =>
        dsimp only [Option.map_some', Option.elim]
        rw [List.drop_succ_cons]
        have hih := ih hrest
        rw [hf] at hih
        exact hih

/-- Claim C8: on a log whose seqs strictly increase in log order (the room
invariant), `MessagesAfter` returns exactly the envelopes with `seq > after`
in log order, cut to the first `limit` when `limit > 0` and unlimited
otherwise; in particular when every logged seq is at most `after` (so also
for any `after` at or past the room's maximum seq, and for the empty log) the
result is empty. -/
theorem messagesAfter_filter_spec (msgs : List Envelope) (after limit : Int)
    (hs : List.Pairwise (fun a b => a.seqNum < b.seqNum) msgs) :
    messagesAfter msgs after limit =
      (if 0 < limit then
        (msgs.filter (fun m => decide (after < m.seqNum))).take limit.toNat
       else msgs.filter (fun m => decide (after < m.seqNum))) ∧
    ((∀ m ∈ msgs, m.seqNum ≤ after) → messagesAfter msgs after limit = []) := by
  have hcore := findStart_drop_eq_filter msgs after hs
  constructor
  · unfold messagesAfter
    cases hf : findStart msgs after with
    | none =>
      rw [hf] at hcore
      dsimp only [Option.elim] at hcore
      rw [← hcore]
      simp
    | some s =>
      rw [hf] at hcore
      dsimp only [Option.elim] at hcore
      dsimp only
      rw [hcore]
      by_cases hl : 0 < limit
      · by_cases hlen :
            (limit : Int) < ((msgs.filter (fun m => decide (after < m.seqNum))).length : Int)
        · rw [if_pos ⟨hl, hlen⟩, if_pos hl]
        · rw [if_neg (by tauto), if_pos hl]
          rw [List.take_of_length_le (by omega)]
      · rw [if_neg (by tauto), if_neg hl]
  · intro hall
    unfold messagesAfter
    rw [(findStart_none_iff msgs after).mpr hall]

/-- Witness for C8 at concrete inputs: with logged seqs 1, 2, 3, a query after
seq 1 with limit 1 returns the first entry of the filtered tail, and a query
after the maximum seq returns empty. -/
theorem messagesAfter_filter_spec_witness :
    List.Pairwise (fun a b : Envelope => a.seqNum < b.seqNum)
      [⟨"a1", "R", "A", 1, "text", ⟨"", "", "", "", ""⟩, 1, []⟩,
       ⟨"a2", "R", "A", 2, "text", ⟨"", "", "", "", ""⟩, 2, []⟩,
       ⟨"a3", "R", "A", 3, "text", ⟨"", "", "", "", ""⟩, 3, []⟩] ∧
    (messagesAfter
        [⟨"a1", "R", "A", 1, "text", ⟨"", "", "", "", ""⟩, 1, []⟩,
         ⟨"a2", "R", "A", 2, "text", ⟨"", "", "", "", ""⟩, 2, []⟩,
         ⟨"a3", "R", "A", 3, "text", ⟨"", "", "", "", ""⟩, 3, []⟩] 1 1 =
      (if (0 : Int) < 1 then
        (List.filter (fun m => decide ((1 : Int) < m.seqNum))
          [⟨"a1", "R", "A", 1, "text", ⟨"", "", "", "", ""⟩, 1, []⟩,
           ⟨"a2", "R", "A", 2, "text", ⟨"", "", "", "", ""⟩, 2, []⟩,
           ⟨"a3", "R", "A", 3, "text", ⟨"", "", "", "", ""⟩, 3, []⟩]).take (1 : Int).toNat
       else List.filter (fun m => decide ((1 : Int) < m.seqNum))
          [⟨"a1", "R", "A", 1, "text", ⟨"", "", "", "", ""⟩, 1, []⟩,
           ⟨"a2", "R", "A", 2, "text", ⟨"", "", "", "", ""⟩, 2, []⟩,
           ⟨"a3", "R", "A", 3, "text", ⟨"", "", "", "", ""⟩, 3, []⟩]) ∧
     ((∀ m ∈ [⟨"a1", "R", "A", 1, "text", ⟨"", "", "", "", ""⟩, 1, []⟩,
              ⟨"a2", "R", "A", 2, "text", ⟨"", "", "", "", ""⟩, 2, []⟩,
              (⟨"a3", "R", "A", 3, "text", ⟨"", "", "", "", ""⟩, 3, []⟩ : Envelope)],
          m.seqNum ≤ 1) →
       messagesAfter
        [⟨"a1", "R", "A", 1, "text", ⟨"", "", "", "", ""⟩, 1, []⟩,
         ⟨"a2", "R", "A", 2, "text", ⟨"", "", "", "", ""⟩, 2, []⟩,
         ⟨"a3", "R", "A", 3, "text", ⟨"", "", "", "", ""⟩, 3, []⟩] 1 1 = [])) :=
  ⟨by decide,
   messagesAfter_filter_spec
     [⟨"a1", "R", "A", 1, "text", ⟨"", "", "", "", ""⟩, 1, []⟩,
      ⟨"a2", "R", "A", 2, "text", ⟨"", "", "", "", ""⟩, 2, []⟩,
      ⟨"a3", "R", "A", 3, "text", ⟨"", "", "", "", ""⟩, 3, []⟩] 1 1 (by decide)⟩

theorem slookup_mem {α : Type} (l : List (String × α)) (k : String) (v : α)
    (h : slookup l k = some v) : (k, v) ∈ l := by
  induction l with
  | nil => exact Option.noConfusion h
  | cons hd tl ih =>
    obtain ⟨k', v'⟩ := hd
    unfold slookup at h
    by_cases hk : k' = k
    · rw [if_pos hk] at h
      injection h with h1
      subst hk
      subst h1
      exact List.mem_cons_self _ _
    · rw [if_neg hk] at h
      exact List.mem_cons_of_mem _ (ih h)

theorem isDaemonTarget_iff (r : RoomState) (n : String) :
    isDaemonTarget r n = true ↔
      ∃ ps, slookup r.participants n = some ps ∧ ps.connected = true ∧
        ps.role = "daemon" := by
  unfold isDaemonTarget
  rcases h : slookup r.participants n with _ | ps
  · simp
  · simp [Bool.and_eq_true, beq_iff_eq]

theorem mem_conv_targets_iff (r : RoomState) (env : Envelope)
    (hcond : ¬(mget env.metadata "to" = "" ∨ mget env.metadata "expecting_reply" ≠ "true"))
    (n : String) :
    n ∈ (getConvSpawnTargets r env).1 ↔
      ((n = mget env.metadata "to" ∨
        (mget env.metadata "conv_id" ≠ "" ∧
         n ∈ convLookup r.convParticipants (mget env.metadata "conv_id") ∧
         n ≠ env.sender)) ∧
       isDaemonTarget r n = true) := by
  unfold getConvSpawnTargets
  rw [if_neg hcond]
  dsimp only
  constructor
  · intro hmem
    rcases List.mem_append.mp hmem with hfd | hcm
    · by_cases hd : isDaemonTarget r (mget env.metadata "to") = true
      · rw [if_pos hd] at hfd
        have hn : n = mget env.metadata "to" := by simpa using hfd
        subst hn
        exact ⟨Or.inl rfl, hd⟩
      · rw [if_neg hd] at hfd
        simp at hfd
    · obtain ⟨hcm1, _⟩ := List.mem_filter.mp hcm
      by_cases hc : mget env.metadata "conv_id" = ""
      · rw [if_neg (by simp [hc])] at hcm1
        simp at hcm1
      · rw [if_pos hc] at hcm1
        obtain ⟨hconv, hpred⟩ := List.mem_filter.mp hcm1
        rw [Bool.and_eq_true, bne_iff_ne] at hpred
        exact ⟨Or.inr ⟨hc, hconv, hpred.1⟩, hpred.2⟩
  · rintro ⟨hcand, hD⟩
    apply List.mem_append.mpr
    rcases hcand with rfl | ⟨hcid, hconv, hne⟩
    · left
      rw [if_pos hD]
      simp
    · by_cases hsm : smem (if isDaemonTarget r (mget env.metadata "to") = true
          then [mget env.metadata "to"] else []) n = true
      · left
        have hn := (smem_iff_mem _ _).mp hsm
        by_cases hd : isDaemonTarget r (mget env.metadata "to") = true
        · rw [if_pos hd] at hn ⊢
          exact hn
        · rw [if_neg hd] at hn
          simp at hn
      · right
        apply List.mem_filter.mpr
        refine ⟨?_, by simpa using hsm⟩
        rw [if_pos hcid]
        exact List.mem_filter.mpr ⟨hconv, by simp [bne_iff_ne, hne, hD]⟩

theorem mem_hook_targets_eligible (r : RoomState) (env : Envelope) (n : String)
    (h : n ∈ (getHookSpawnTargets r env).1) : hookEligible r env n = true := by
  unfold getHookSpawnTargets at h
  by_cases hcond : (mget env.metadata "to" = "" ∨ mget env.metadata "expecting_reply" ≠ "true")
  · rw [if_pos hcond] at h
    simp at h
  · rw [if_neg hcond] at h
    dsimp only at h
    rcases List.mem_append.mp h with hfd | hcm
    · by_cases hd : hookEligible r env (mget env.metadata "to") = true
      · rw [if_pos hd] at hfd
        have hn : n = mget env.metadata "to" := by simpa using hfd
        subst hn
        exact hd
      · rw [if_neg hd] at hfd
        simp at hfd
    · by_cases hc : mget env.metadata "conv_id" = ""
      · rw [if_neg (by simp [hc])] at hcm
        simp at hcm
      · rw [if_pos hc] at hcm
        obtain ⟨_, hpred⟩ := List.mem_filter.mp hcm
        rw [Bool.and_eq_true] at hpred
        exact hpred.1

/-- Claim C1 (with the room invariant that every connected `"daemon"`-role
participant entry carries a non-nil daemon client — which is how the server
ever writes the map): the target selection of `GetConvSpawnTargets` is empty
when `to` is unset or `expecting_reply` is not `"true"`; otherwise the daemon
target set is exactly the candidate names (`to`, plus the `conv_id` thread
members other than the sender) whose participant entry exists, is connected,
has role `"daemon"`, and holds a non-nil daemon client. -/
theorem getConvSpawnTargets_characterization (r : RoomState) (env : Envelope)
    (hInv : ∀ p ∈ r.participants, (p : String × ParticipantState).2.connected = true →
      p.2.role = "daemon" → p.2.client ≠ none) :
    ((mget env.metadata "to" = "" ∨ mget env.metadata "expecting_reply" ≠ "true") →
      getConvSpawnTargets r env = ([], [])) ∧
    (mget env.metadata "to" ≠ "" → mget env.metadata "expecting_reply" = "true" →
      ∀ n, n ∈ (getConvSpawnTargets r env).1 ↔
        ((n = mget env.metadata "to" ∨
          (mget env.metadata "conv_id" ≠ "" ∧
           n ∈ convLookup r.convParticipants (mget env.metadata "conv_id") ∧
           n ≠ env.sender)) ∧
         ∃ ps, slookup r.participants n = some ps ∧ ps.connected = true ∧
           ps.role = "daemon" ∧ ps.client ≠ none)) := by
  constructor
  · intro h
    unfold getConvSpawnTargets
    rw [if_pos h]
  · intro h1 h2 n
    rw [mem_conv_targets_iff r env (by tauto) n, isDaemonTarget_iff]
    constructor
    · rintro ⟨hc, ps, hl, hcon, hrole⟩
      exact ⟨hc, ps, hl, hcon, hrole,
        hInv (n, ps) (slookup_mem _ _ _ hl) hcon hrole⟩
    · rintro ⟨hc, ps, hl, hcon, hrole, _⟩
      exact ⟨hc, ps, hl, hcon, hrole⟩

/-- Witness for C1 at concrete inputs: in `c1room` (daemons `B`, `C`, user
`A`, thread `t1` = `{A, B, C}`), for the directed envelope `c1env` from `A`
to `B`, name `C` satisfies the characterization. -/
theorem getConvSpawnTargets_characterization_witness :
    mget c1env.metadata "to" ≠ "" ∧
    ("C" ∈ (getConvSpawnTargets c1room c1env).1 ↔
      (("C" = mget c1env.metadata "to" ∨
        (mget c1env.metadata "conv_id" ≠ "" ∧
         "C" ∈ convLookup c1room.convParticipants (mget c1env.metadata "conv_id") ∧
         "C" ≠ c1env.sender)) ∧
       ∃ ps, slookup c1room.participants "C" = some ps ∧ ps.connected = true ∧
         ps.role = "daemon" ∧ ps.client ≠ none)) :=
  ⟨by decide,
   (getConvSpawnTargets_characterization c1room c1env (by decide)).2
     (by decide) (by decide) "C"⟩

/-- Claim C5 (under the same room invariant as C1, maintained by every write
the server performs on the participant map): no name is selected both as a
daemon target by `GetConvSpawnTargets` and as a hook target by
`GetHookSpawnTargets` for the same envelope. -/
theorem conv_hook_targets_disjoint (r : RoomState) (env : Envelope)
    (hInv : ∀ p ∈ r.participants, (p : String × ParticipantState).2.connected = true →
      p.2.role = "daemon" → p.2.client ≠ none) :
    ∀ n, n ∈ (getConvSpawnTargets r env).1 → n ∉ (getHookSpawnTargets r env).1 := by
  intro n hc hh
  by_cases hcond : (mget env.metadata "to" = "" ∨ mget env.metadata "expecting_reply" ≠ "true")
  · unfold getConvSpawnTargets at hc
    rw [if_pos hcond] at hc
    simp at hc
  · have hD := ((mem_conv_targets_iff r env hcond n).mp hc).2
    obtain ⟨ps, hl, hcon, hrole⟩ := (isDaemonTarget_iff r n).mp hD
    have hcl := hInv (n, ps) (slookup_mem _ _ _ hl) hcon hrole
    have hE := mem_hook_targets_eligible r env n hh
    unfold hookEligible at hE
    by_cases hns : n = env.sender
    · rw [if_pos hns] at hE
      exact Bool.noConfusion hE
    · rw [if_neg hns] at hE
      by_cases hsm : (!smem r.spawnHooks n) = true
      · rw [if_pos hsm] at hE
        exact Bool.noConfusion hE
      · rw [if_neg hsm] at hE
        rw [hl] at hE
        rw [Option.isNone_iff_eq_none] at hE
        exact hcl hE

/-- Witness for C5 at concrete inputs: in `c5room`, `B` is a connected daemon
with a registered hook; for the directed envelope `c5env` it is a daemon
target and therefore not a hook target. -/
theorem conv_hook_targets_disjoint_witness :
    "B" ∈ (getConvSpawnTargets c5room c5env).1 ∧
    "B" ∉ (getHookSpawnTargets c5room c5env).1 :=
  ⟨by decide, conv_hook_targets_disjoint c5room c5env (by decide) "B" (by decide)⟩

/-- Counterexample to C4 at a concrete input: for an envelope whose sender
addresses itself (`to == sender == "A"`, `expecting_reply == "true"`) in a
room where `A` is a connected daemon, `GetConvSpawnTargets` returns the
sender itself as a daemon target — the direct-recipient branch of the Go code
applies no `n != e.sender` filter. -/
theorem conv_targets_self_target_cex :
    c4env.sender ∈ (getConvSpawnTargets c4room c4env).1 := by decide

/-- Claim C4 as amended: the `n != e.sender` exclusion holds for every
conv-thread candidate, and therefore the sender is never a daemon target
whenever `to != sender`; when `to == sender` the direct recipient (the sender
itself) can be targeted.  Separately, the dispatch loop in `writePump` never
sends a spawn frame to the dispatching connection itself — that exclusion is
by connection identity, not by name. -/
theorem conv_targets_sender_excluded (r : RoomState) (env : Envelope)
    (daemonClients : List (String × Nat)) (self : Nat)
    (hto : mget env.metadata "to" ≠ env.sender) :
    env.sender ∉ (getConvSpawnTargets r env).1 ∧
    self ∉ spawnDispatchClients daemonClients self := by
  constructor
  · intro hmem
    by_cases hcond : (mget env.metadata "to" = "" ∨
        mget env.metadata "expecting_reply" ≠ "true")
    · unfold getConvSpawnTargets at hmem
      rw [if_pos hcond] at hmem
      simp at hmem
    · rcases ((mem_conv_targets_iff r env hcond env.sender).mp hmem).1 with
        hc | ⟨_, _, hne⟩
      · exact hto hc.symm
      · exact hne rfl
  · intro hmem
    unfold spawnDispatchClients at hmem
    obtain ⟨p, hp, heq⟩ := List.mem_map.mp hmem
    obtain ⟨_, hpred⟩ := List.mem_filter.mp hp
    rw [bne_iff_ne] at hpred
    exact hpred heq

/-- Witness for C4 at concrete inputs: for the directed envelope `c4envB`
(`A` → `B`), the sender `A` is not a daemon target, and connection `7` never
enqueues a spawn frame to itself. -/
theorem conv_targets_sender_excluded_witness :
    mget c4envB.metadata "to" ≠ c4envB.sender ∧
    (c4envB.sender ∉ (getConvSpawnTargets c4room c4envB).1 ∧
     7 ∉ spawnDispatchClients [("A", 3), ("B", 7)] 7) :=
  ⟨by decide,
   conv_targets_sender_excluded c4room c4envB [("A", 3), ("B", 7)] 7 (by decide)⟩

theorem mem_setKey {α : Type} (l : List (String × α)) (k : String) (v : α)
    (p : String × α) (h : p ∈ setKey l k v) : p = (k, v) ∨ p ∈ l := by
  induction l with
  | nil =>
    unfold setKey at h
    simp at h
    exact Or.inl h
  | cons hd tl ih =>
    obtain ⟨k', v'⟩ := hd
    unfold setKey at h
    by_cases hk : k' = k
    · rw [if_pos hk] at h
      rcases List.mem_cons.mp h with heq | hmem
      · exact Or.inl heq
      · exact Or.inr (List.mem_cons_of_mem _ hmem)
    · rw [if_neg hk] at h
      rcases List.mem_cons.mp h with heq | hmem
      · exact Or.inr (heq ▸ List.mem_cons_self _ _)
      · rcases ih hmem with h1 | h2
        · exact Or.inl h1
        · exact Or.inr (List.mem_cons_of_mem _ h2)

/-- `TrackParticipant` preserves the connected-daemon-has-client invariant
used in the C1 and C5 hypotheses, provided a `"daemon"`-role registration
carries a non-nil client — which holds for every caller in the server:
`ServeWS` always passes the freshly created connection, and `SpawnClaude`
registers with role `"claude"`. -/
theorem trackParticipant_preserves_daemonClientInv (r : RoomState)
    (name role : String) (c : Option Nat) (now : Int)
    (hInv : ∀ p ∈ r.participants, (p : String × ParticipantState).2.connected = true →
      p.2.role = "daemon" → p.2.client ≠ none)
    (hc : role = "daemon" → c ≠ none) :
    ∀ p ∈ (trackParticipant r name role c now).participants,
      (p : String × ParticipantState).2.connected = true →
      p.2.role = "daemon" → p.2.client ≠ none := by
  intro p hp hpcon hprole
  unfold trackParticipant at hp
  rcases hl : slookup r.participants name with _ | ps <;> rw [hl] at hp <;> dsimp only at hp
  · rcases List.mem_append.mp hp with hold | hnew
    · exact hInv p hold hpcon hprole
    · have hpe : p = (name,
          ⟨name, role, now, true, c⟩) := by simpa using hnew
      subst hpe
      dsimp only at hprole ⊢
      exact hc hprole
  · rcases mem_setKey _ _ _ _ hp with hpe | hold
    · subst hpe
      dsimp only at hprole ⊢
      by_cases hrd : role = "daemon"
      · rw [if_pos hrd]
        exact hc hrd
      · exact absurd hprole hrd
    · exact hInv p hold hpcon hprole

/-- `UntrackParticipant` preserves the connected-daemon-has-client invariant:
the touched entry ends up disconnected, so the invariant is vacuous for it. -/
theorem untrackParticipant_preserves_daemonClientInv (r : RoomState) (name : String)
    (hInv : ∀ p ∈ r.participants, (p : String × ParticipantState).2.connected = true →
      p.2.role = "daemon" → p.2.client ≠ none) :
    ∀ p ∈ (untrackParticipant r name).participants,
      (p : String × ParticipantState).2.connected = true →
      p.2.role = "daemon" → p.2.client ≠ none := by
  intro p hp hpcon hprole
  unfold untrackParticipant at hp
  rcases hl : slookup r.participants name with _ | ps <;> rw [hl] at hp <;> dsimp only at hp
  · exact hInv p hp hpcon hprole
  · rcases mem_setKey _ _ _ _ hp with hpe | hold
    · subst hpe
      exact absurd hpcon (by simp)
    · exact hInv p hold hpcon hprole

theorem sorted_append_one (msgs : List Envelope) (env : Envelope) (s : Int)
    (hsort : List.Pairwise (fun a b => a.seqNum < b.seqNum) msgs)
    (hle : ∀ m ∈ msgs, m.seqNum ≤ s) (henv : env.seqNum = s + 1) :
    List.Pairwise (fun a b => a.seqNum < b.seqNum) (msgs ++ [env]) ∧
    ∀ m ∈ msgs ++ [env], m.seqNum ≤ s + 1 := by
  constructor
  · rw [List.pairwise_append]
    refine ⟨hsort, List.pairwise_singleton _ _, fun a ha b hb => ?_⟩
    have hb' := List.mem_singleton.mp hb
    subst hb'
    have := hle a ha
    omega
  · intro m hm
    rcases List.mem_append.mp hm with hm1 | hm2
    · have := hle m hm1
      omega
    · have hm2' := List.mem_singleton.mp hm2
      subst hm2'
      omega

theorem addMessage_sorted (r : RoomState) (inp : AppendInput) (r1 : RoomState)
    (env : Envelope) (h : addMessage r inp = some (r1, env))
    (hsort : List.Pairwise (fun a b => a.seqNum < b.seqNum) r.messages)
    (hle : ∀ m ∈ r.messages, m.seqNum ≤ r.seq) :
    List.Pairwise (fun a b => a.seqNum < b.seqNum) r1.messages ∧
    ∀ m ∈ r1.messages, m.seqNum ≤ r1.seq := by
  unfold addMessage at h
  dsimp only at h
  split at h
  · exact Option.noConfusion h
  · next msgs' heq =>
    simp only [Option.some.injEq, Prod.mk.injEq] at h
    obtain ⟨h1, h2⟩ := h
    subst h1
    have henv : env.seqNum = r.seq + 1 := by rw [← h2]
    rw [h2] at heq
    obtain ⟨hfull, hfull_le⟩ :=
      sorted_append_one r.messages env r.seq hsort hle henv
    split at heq
    · unfold sliceFrom at heq
      split at heq
      · simp only [Option.some.injEq] at heq
        subst heq
        constructor
        · exact hfull.sublist (List.drop_sublist _ _)
        · intro m hm
          exact hfull_le m (List.mem_of_mem_drop hm)
      · exact Option.noConfusion heq
    · simp only [Option.some.injEq] at heq
      subst heq
      exact ⟨hfull, hfull_le⟩

theorem runAppends_sorted_aux (inputs : List AppendInput) (r r' : RoomState)
    (envs : List Envelope) (h : runAppends r inputs = some (r', envs))
    (hsort : List.Pairwise (fun a b => a.seqNum < b.seqNum) r.messages)
    (hle : ∀ m ∈ r.messages, m.seqNum ≤ r.seq) :
    List.Pairwise (fun a b => a.seqNum < b.seqNum) r'.messages := by
  induction inputs generalizing r envs with
  | nil =>
    unfold runAppends at h
    simp only [Option.some.injEq, Prod.mk.injEq] at h
    obtain ⟨h1, _⟩ := h
    subst h1
    exact hsort
  | cons inp rest ih =>
    unfold runAppends at h
    rcases ha : addMessage r inp with _ | ⟨r1, env⟩
    · rw [ha] at h
      exact Option.noConfusion h
    · rw [ha] at h
      dsimp only at h
      rcases hb : runAppends r1 rest with _ | ⟨r2, envs2⟩
      · rw [hb] at h
        exact Option.noConfusion h
      · rw [hb] at h
        simp only [Option.some.injEq, Prod.mk.injEq] at h
        obtain ⟨h1, _⟩ := h
        subst h1
        obtain ⟨hsort1, hle1⟩ := addMessage_sorted r inp r1 env ha hsort hle
        exact ih r1 envs2 hb hsort1 hle1

/-- The room invariant behind the C8 hypothesis: any log a room reaches by a
sequence of appends from `NewRoom` has strictly increasing seqs in log order,
truncation included. -/
theorem room_log_sorted (name : String) (mh : Int) (inputs : List AppendInput)
    (r' : RoomState) (envs : List Envelope)
    (h : runAppends (newRoom name mh) inputs = some (r', envs)) :
    List.Pairwise (fun a b => a.seqNum < b.seqNum) r'.messages := by
  apply runAppends_sorted_aux inputs (newRoom name mh) r' envs h
  · simp [newRoom]
  · intro m hm
    simp [newRoom] at hm

/-- Counterexample to C9 at a concrete input: on a hub with no rooms, both
`GetMessages` and `LatestMessages` for an unknown room answer with the 200
empty-list response — not with a not-found error as the claim states. -/
theorem unknown_room_not_error_cex :
    getMessagesH [] "myroom" 0 100 = ApiResult.okMessages "myroom" [] 0 ∧
    (getMessagesH [] "myroom" 0 100).isErr = false ∧
    latestMessagesH [] "myroom" 10 = ApiResult.okMessages "myroom" [] 0 ∧
    (latestMessagesH [] "myroom" 10).isErr = false := by decide

/-- Claim C9 as amended: for an unknown room, `messages`, `latest` and
`participants` all answer with 200 empty-list responses rather than errors;
`stop` for a user with no active turn answers with a 404 not-found error. -/
theorem unknown_room_empty_list (rooms : List (String × RoomState))
    (roomName sender : String) (after limit n : Int) (sessions : List SessionKey)
    (hname : roomName ≠ "") (hroom : slookup rooms roomName = none) :
    getMessagesH rooms roomName after limit = .okMessages roomName [] 0 ∧
    latestMessagesH rooms roomName n = .okMessages roomName [] 0 ∧
    listParticipantsH rooms roomName = .okParticipants roomName [] ∧
    (sender ≠ "" → (∀ k ∈ sessions, ¬(k.room = roomName ∧ k.sender = sender)) →
      stopClaudeH sessions roomName sender =
        (.err 404 (noSessionMsg roomName sender), sessions)) := by
  refine ⟨?_, ?_, ?_, fun hs hnoact => ?_⟩
  · unfold getMessagesH
    rw [if_neg hname, hroom]
  · unfold latestMessagesH
    rw [if_neg hname, hroom]
  · unfold listParticipantsH
    rw [if_neg hname, hroom]
  · unfold stopClaudeH sessionStop
    rw [if_neg hname, if_neg hs]
    have hany : sessions.any (fun k => k.room == roomName && k.sender == sender) = false := by
      rcases hca : sessions.any (fun k => k.room == roomName && k.sender == sender) with _ | _
      · rfl
      · obtain ⟨k, hk, hkp⟩ := List.any_eq_true.mp hca
        rw [Bool.and_eq_true, beq_iff_eq, beq_iff_eq] at hkp
        exact absurd hkp (hnoact k hk)
    rw [hany]
    rfl

/-- Witness for C9 at concrete inputs: an empty hub and a session list with
no entry for user `B` in room `r`. -/
theorem unknown_room_empty_list_witness :
    ("r" : String) ≠ "" ∧
    (getMessagesH [] "r" 0 100 = .okMessages "r" [] 0 ∧
     latestMessagesH [] "r" 10 = .okMessages "r" [] 0 ∧
     listParticipantsH [] "r" = .okParticipants "r" [] ∧
     (("B" : String) ≠ "" →
       (∀ k ∈ [(⟨"other", "B", ""⟩ : SessionKey)], ¬(k.room = "r" ∧ k.sender = "B")) →
       stopClaudeH [⟨"other", "B", ""⟩] "r" "B" =
         (.err 404 (noSessionMsg "r" "B"), [⟨"other", "B", ""⟩]))) :=
  ⟨by decide,
   unknown_room_empty_list [] "r" "B" 0 100 10 [⟨"other", "B", ""⟩]
     (by decide) (by decide)⟩

end ClaudeTalk
